import Mathlib

/-!
Verification of the Mahjong expert-system decision engine
(`mahjong_ai.py` and its near-identical variant `major.py`).

Numeric values are modelled as exact rationals (`ℚ`); Python floats are
IEEE doubles, but every comparison relied on below is far from the
rounding error of the constants involved.
-/

inductive Suit where
  | wan
  | tiao
  | tong
deriving DecidableEq, Repr

/-- A tile string such as `"5万"`: `int(tile[:-1])` is `num`, `tile[-1]` is
the suit character.  `num` ranges over ℤ because the code forms neighbour
strings `f"{num + offset}{type}"` that may have rank 0 or 10. -/
structure Tile where
  num : ℤ
  suit : Suit
deriving DecidableEq, Repr

/-- `d.get(k, default)` / `d[k]`-with-default on a Python dict modelled as an
association list (first binding wins, as dict keys are unique). -/
def lookupD {α β : Type} [DecidableEq α] (l : List (α × β)) (k : α) (d : β) : β :=
  match l with
  | [] => d
  | p :: ps => if p.1 = k then p.2 else lookupD ps k d

/-- `k in d` on a Python dict. -/
def containsKey {α β : Type} [DecidableEq α] (l : List (α × β)) (k : α) : Bool :=
  l.any (fun p => p.1 = k)

/-- `d[k] = v` on a Python dict: overwrite the existing binding in place,
or append a new binding at the end. -/
def setKey {α β : Type} [DecidableEq α] (l : List (α × β)) (k : α) (v : β) : List (α × β) :=
  match l with
  | [] => [(k, v)]
  | p :: ps => if p.1 = k then (k, v) :: ps else p :: setKey ps k v

/-- `risk_factors`: four scalar weights plus the nested `be_ponged` dict
(keys: how many copies of the tile are already in the discard pile). -/
structure RiskFactors where
  be_eaten : ℚ
  be_ponged : List (ℤ × ℚ)
  be_konged : ℚ
  be_winning_tile : ℚ
  already_discarded : ℚ
deriving DecidableEq, Repr

/-- `value_factors`: one scalar per hand-shape category. -/
structure ValueFactors where
  four_of_a_kind : ℚ
  three_of_a_kind : ℚ
  pair : ℚ
  sequence : ℚ
  single : ℚ
deriving DecidableEq, Repr

/-- The content of one `_save_weights` snapshot: the four weight tables as
they stood when the file was written. -/
structure WSnapshot where
  tile_weights : List (Tile × ℚ)
  position_weights : List (ℤ × ℚ)
  risk_factors : RiskFactors
  value_factors : ValueFactors
deriving DecidableEq, Repr

/-- The mutable state of one `MahjongAI` instance.  `snapshot` records the
content of the last `_save_weights` write (`none` = never saved). -/
structure MState where
  discard_pile : List Tile
  my_discards : List Tile
  my_hand : List Tile
  new_tile : Option Tile
  last_discarded_tile : Option Tile
  tile_weights : List (Tile × ℚ)
  position_weights : List (ℤ × ℚ)
  risk_factors : RiskFactors
  value_factors : ValueFactors
  snapshot : Option WSnapshot
deriving DecidableEq, Repr

/-- `_get_initial_weight` (identical in both files). -/
def get_initial_weight (num : ℤ) : ℚ :=
  if num = 1 ∨ num = 9 then 0.8
  else if num = 2 ∨ num = 8 then 0.9
  else if num = 3 ∨ num = 7 then 1.2
  else 1.5

/-- The dict comprehension building `tile_weights` in `__init__`
(suit outer, rank 1..9 inner). -/
def default_tile_weights : List (Tile × ℚ) :=
  (([Suit.wan, Suit.tiao, Suit.tong].map fun ty =>
    (List.range 9).map fun i =>
      ((⟨(i : ℤ) + 1, ty⟩ : Tile), get_initial_weight ((i : ℤ) + 1)))).flatten

def default_position_weights : List (ℤ × ℚ) :=
  [(1, -2), (2, -1), (3, 1), (4, 1), (5, 1), (6, 1), (7, 1), (8, -1), (9, -2)]

def default_risk_factors : RiskFactors :=
  { be_eaten := 2
    be_ponged := [(0, 8), (1, 4), (2, 0)]
    be_konged := 4
    be_winning_tile := 10
    already_discarded := -5 }

def default_value_factors : ValueFactors :=
  { four_of_a_kind := 20
    three_of_a_kind := 15
    pair := 10
    sequence := 5
    single := 1 }

/-- The state right after `__init__` when no snapshot file exists
(so `_load_weights` leaves the built-in defaults in place). -/
def default_state : MState :=
  { discard_pile := []
    my_discards := []
    my_hand := []
    new_tile := none
    last_discarded_tile := none
    tile_weights := default_tile_weights
    position_weights := default_position_weights
    risk_factors := default_risk_factors
    value_factors := default_value_factors
    snapshot := none }

/-- `_save_weights`: writes the four tables to the snapshot file.
Modelled as recording the written content; the I/O-failure branch only
logs and changes nothing. -/
def save_weights (s : MState) : MState :=
  let data : WSnapshot :=
    ⟨s.tile_weights, s.position_weights, s.risk_factors, s.value_factors⟩
  { s with snapshot := some data }

/-- `update_state` (identical in both files): overwrite the observation
fields and append the newly drawn tile, if any, to the hand. -/
def update_state (s : MState) (discard_pile my_discards my_hand : List Tile)
    (new_tile : Option Tile) : MState :=
  let s1 := { s with discard_pile := discard_pile, my_discards := my_discards,
                     my_hand := my_hand, new_tile := new_tile }
  match new_tile with
  | some t => { s1 with my_hand := s1.my_hand ++ [t] }
  | none => s1

/-- `get_positional_weight` (identical in both files):
`self.position_weights.get(num, 0)`. -/
def get_positional_weight (s : MState) (tile : Tile) : ℚ :=
  lookupD s.position_weights tile.num 0

/-- `get_remaining_weight` from `mahjong_ai.py`:
`return {-5: 0, -2: 1}.get(discard_count, 0)` — note the literal dict used
for the lookup, transcribed verbatim. -/
def get_remaining_weight (s : MState) (tile : Tile) : ℚ :=
  let discard_count : ℤ := s.discard_pile.count tile
  lookupD [((-5 : ℤ), (0 : ℚ)), (-2, 1)] discard_count 0

/-- `get_remaining_weight` from `major.py` (the if/elif chain). -/
def mj_get_remaining_weight (discard_pile : List Tile) (tile : Tile) : ℚ :=
  let discard_count := discard_pile.count tile
  if discard_count = 0 then -5
  else if discard_count = 1 then -2
  else if discard_count = 2 then 0
  else 0

/-- `is_part_of_sequence` (identical logic in both files): some tile at rank
offset −1, 0, +1 and the same suit is in the hand and differs from `tile`. -/
def is_part_of_sequence (s : MState) (tile : Tile) : Bool :=
  [(-1 : ℤ), 0, 1].any fun off =>
    decide ((⟨tile.num + off, tile.suit⟩ : Tile) ∈ s.my_hand) &&
    decide ((⟨tile.num + off, tile.suit⟩ : Tile) ≠ tile)

/-- `_get_value_based_on_count` from `mahjong_ai.py`.  The call site always
passes `tile`, so the Python truthiness test `tile and ...` reduces to the
sequence test. -/
def get_value_based_on_count (s : MState) (count : ℕ) (combined_weight : ℚ)
    (tile : Tile) : ℚ :=
  if count = 4 then s.value_factors.four_of_a_kind * combined_weight
  else if count = 3 then s.value_factors.three_of_a_kind * combined_weight
  else if count = 2 then s.value_factors.pair * combined_weight
  else if is_part_of_sequence s tile then s.value_factors.sequence * combined_weight
  else s.value_factors.single * combined_weight

/-- `evaluate_tile_value` from `mahjong_ai.py`.  `self.tile_weights[tile]`
raises `KeyError` on an unknown tile; it is modelled as a default-0 lookup
and is only ever applied where the key is present. -/
def evaluate_tile_value (s : MState) (tile : Tile) : ℚ :=
  let count := s.my_hand.count tile
  let combined_weight := lookupD s.tile_weights tile 0 + get_remaining_weight s tile
  let value := get_value_based_on_count s count combined_weight tile
  value + get_positional_weight s tile

/-- `is_potential_win_tile` (identical in both files). -/
def is_potential_win_tile (s : MState) (tile : Tile) : Bool :=
  decide (2 ≤ s.discard_pile.count tile) ||
  [(-2 : ℤ), -1, 1, 2].any fun off =>
    decide ((⟨tile.num + off, tile.suit⟩ : Tile) ∈ s.discard_pile)

/-- The raw additive risk accumulated by `evaluate_tile_risk` before the
`max(risk, 0)` floor (shared by both files): eaten + ponged + konged +
winning-tile + already-discarded contributions, in program order. -/
def raw_risk (s : MState) (tile : Tile) : ℚ :=
  let risk : ℚ := 0
  let risk := risk + ([(-1 : ℤ), 0, 1].foldl (fun acc off =>
    if (⟨tile.num + off, tile.suit⟩ : Tile) ∈ s.discard_pile then
      acc + s.risk_factors.be_eaten else acc) 0)
  let risk := risk + lookupD s.risk_factors.be_ponged (↑(s.discard_pile.count tile)) 0
  let risk := risk + (if s.discard_pile.count tile = 0 then s.risk_factors.be_konged else 0)
  let risk := risk + (if is_potential_win_tile s tile then s.risk_factors.be_winning_tile else 0)
  let risk := risk + (if tile ∈ s.my_discards then s.risk_factors.already_discarded else 0)
  risk

/-- `_adjust_risk_factors` from `mahjong_ai.py`: pick the factor from the
just-computed risk, rescale-and-clamp every scalar and every `be_ponged`
entry, then `_save_weights`. -/
def adjust_risk_factors (risk : ℚ) (s : MState) : MState :=
  let factor : ℚ := if 10 < risk then 1.1 else if risk < 5 then 0.9 else 1
  let g : ℚ → ℚ := fun x => max (-10) (min (x * factor) 20)
  let rf := s.risk_factors
  let s1 := { s with risk_factors :=
    { be_eaten := g rf.be_eaten
      be_ponged := rf.be_ponged.map fun p => (p.1, g p.2)
      be_konged := g rf.be_konged
      be_winning_tile := g rf.be_winning_tile
      already_discarded := g rf.already_discarded } }
  save_weights s1

/-- `evaluate_tile_risk` from `mahjong_ai.py`: compute the raw risk, run the
self-tuning side effect on it, return `max(risk, 0)` together with the
mutated state. -/
def evaluate_tile_risk (s : MState) (tile : Tile) : ℚ × MState :=
  let risk := raw_risk s tile
  (max risk 0, adjust_risk_factors risk s)

/-- The list comprehension in `choose_tile_to_discard`:
`[(tile, value(tile) - risk(tile)) for tile in hand]`, threading the
risk-adjustment side effects left to right (value is evaluated before risk
for each tile, as in the Python expression). -/
def score_tiles (hand : List Tile) (s : MState) : List (Tile × ℚ) × MState :=
  match hand with
  | [] => ([], s)
  | t :: ts =>
    let v := evaluate_tile_value s t
    let p := evaluate_tile_risk s t
    let rest := score_tiles ts p.2
    ((t, v - p.1) :: rest.1, rest.2)

/-- `min(scores, key=lambda x: x[1])`: Python's `min` keeps the first
element attaining the minimum. -/
def min_by_score (x : Tile × ℚ) (xs : List (Tile × ℚ)) : Tile × ℚ :=
  xs.foldl (fun best p => if p.2 < best.2 then p else best) x

/-- `choose_tile_to_discard` from `mahjong_ai.py`.  On an empty hand Python's
`min` raises `ValueError`; modelled as `none`. -/
def choose_tile_to_discard (s : MState) : Option (Tile × MState) :=
  let r := score_tiles s.my_hand s
  match r.1 with
  | [] => none
  | x :: xs => some ((min_by_score x xs).1, r.2)

/-- `play` (identical in both files): update the observation, choose a
discard, remove its first occurrence from the hand (`list.remove`), append
it to `my_discards`, record it as the last discard.  The empty-hand
`ValueError` from `min` is modelled as `none`. -/
def play (s : MState) (discard_pile my_discards my_hand : List Tile)
    (new_tile : Option Tile) : Option (Tile × MState) :=
  let s1 := update_state s discard_pile my_discards my_hand new_tile
  match choose_tile_to_discard s1 with
  | none => none
  | some (t, s2) =>
    some (t, { s2 with my_hand := s2.my_hand.erase t,
                       my_discards := s2.my_discards ++ [t],
                       last_discarded_tile := some t })

/-- `_update_value_factors` from `mahjong_ai.py`: only the categories whose
condition holds are rescaled, each clamped to [0.5, 3.0]. -/
def update_value_factors (tile : Tile) (factor : ℚ) (s : MState) : MState :=
  let count := s.my_hand.count tile + 1
  let c : ℚ → ℚ := fun x => max 0.5 (min (x * factor) 3.0)
  let vf := s.value_factors
  let vf := if 4 ≤ count then { vf with four_of_a_kind := c vf.four_of_a_kind } else vf
  let vf := if 3 ≤ count then { vf with three_of_a_kind := c vf.three_of_a_kind } else vf
  let vf := if 2 ≤ count then { vf with pair := c vf.pair } else vf
  let vf := if is_part_of_sequence s tile then { vf with sequence := c vf.sequence } else vf
  { s with value_factors := vf }

/-- `_update_tile_weights` from `mahjong_ai.py`: rescale-and-clamp the
discarded tile, then loop over rank offsets −1, 0, +1 (the offset-0 step
hits the discarded tile itself a second time). -/
def update_tile_weights (tile : Tile) (num : ℤ) (factor : ℚ)
    (tw : List (Tile × ℚ)) : List (Tile × ℚ) :=
  let tw1 := setKey tw tile
    (max 0.5 (min (lookupD tw tile 0 * (if 1 < factor then 1.2 else 0.8)) 2.0))
  [(-1 : ℤ), 0, 1].foldl (fun w off =>
    let adjacent_num := num + off
    if 1 ≤ adjacent_num ∧ adjacent_num ≤ 9 then
      let adjacent_tile : Tile := ⟨adjacent_num, tile.suit⟩
      if containsKey w adjacent_tile then
        setKey w adjacent_tile
          (max 0.5 (min (lookupD w adjacent_tile 0 * (if 1 < factor then 1.1 else 0.9)) 2.0))
      else w
    else w) tw1

/-- `_update_position_weights` from `mahjong_ai.py`. -/
def update_position_weights (num : ℤ) (factor : ℚ) (s : MState) : MState :=
  let v := max (-3) (min (lookupD s.position_weights num 0 * factor) 3)
  { s with position_weights := setKey s.position_weights num v }

/-- `_update_risk_factors` from `mahjong_ai.py` (reinforcement direction:
the inverse factor 0.9-on-win / 1.1-on-loss), clamped. -/
def update_risk_factors (factor : ℚ) (s : MState) : MState :=
  let g : ℚ → ℚ := fun x => max (-10) (min (x * (if 1 < factor then 0.9 else 1.1)) 20)
  let rf := s.risk_factors
  { s with risk_factors :=
    { be_eaten := g rf.be_eaten
      be_ponged := rf.be_ponged.map fun p => (p.1, g p.2)
      be_konged := g rf.be_konged
      be_winning_tile := g rf.be_winning_tile
      already_discarded := g rf.already_discarded } }

/-- `update_experience` from `mahjong_ai.py` (the second definition in the
file, which Python keeps): no-op when `last_discarded_tile` is unset,
otherwise the four table updates followed by `_save_weights`. -/
def update_experience (is_winning : Bool) (s : MState) : MState :=
  match s.last_discarded_tile with
  | none => s
  | some tile =>
    let num := tile.num
    let factor : ℚ := if is_winning then 1.1 else 0.9
    let s1 := update_value_factors tile factor s
    let s2 := { s1 with tile_weights := update_tile_weights tile num factor s1.tile_weights }
    let s3 := update_position_weights num factor s2
    let s4 := update_risk_factors factor s3
    save_weights s4

/-- `_adjust_risk_factors` from `major.py`: conditionally rescale (no clamp
inside the branches), then clamp each scalar and each `be_ponged` entry,
then `_save_weights`. -/
def mj_adjust_risk_factors (risk : ℚ) (s : MState) : MState :=
  let rf := s.risk_factors
  let rf : RiskFactors :=
    if 10 < risk then
      ⟨rf.be_eaten * 1.1, rf.be_ponged.map (fun p => (p.1, p.2 * 1.1)),
       rf.be_konged * 1.1, rf.be_winning_tile * 1.1, rf.already_discarded * 1.1⟩
    else if risk < 5 then
      ⟨rf.be_eaten * 0.9, rf.be_ponged.map (fun p => (p.1, p.2 * 0.9)),
       rf.be_konged * 0.9, rf.be_winning_tile * 0.9, rf.already_discarded * 0.9⟩
    else rf
  let c : ℚ → ℚ := fun x => max (-10) (min x 20)
  let rf : RiskFactors :=
    ⟨c rf.be_eaten, rf.be_ponged.map (fun p => (p.1, c p.2)),
     c rf.be_konged, c rf.be_winning_tile, c rf.already_discarded⟩
  save_weights { s with risk_factors := rf }

/-- `update_experience` from `major.py`: value factors (only triggered
categories rescaled, then ALL five clamped), tile weights (discarded tile
×1.2/0.8 and every rank-offset −1/0/+1 tile ×1.1/0.9, no clamp here),
position weight, risk factors (inverse direction, no clamp here), then the
final clamp pass — which clamps `tile_weights[tile]` and
`position_weights[num]` but NOT the neighbour tile weights — and save. -/
def mj_update_experience (is_winning : Bool) (s : MState) : MState :=
  match s.last_discarded_tile with
  | none => s
  | some tile =>
    let num := tile.num
    let f1 : ℚ := if is_winning then 1.1 else 0.9
    let count := s.my_hand.count tile + 1
    let vf := s.value_factors
    let vf := if 4 ≤ count then { vf with four_of_a_kind := vf.four_of_a_kind * f1 } else vf
    let vf := if 3 ≤ count then { vf with three_of_a_kind := vf.three_of_a_kind * f1 } else vf
    let vf := if 2 ≤ count then { vf with pair := vf.pair * f1 } else vf
    let vf := if is_part_of_sequence s tile then { vf with sequence := vf.sequence * f1 } else vf
    let c3 : ℚ → ℚ := fun x => max 0.5 (min x 3.0)
    let vf : ValueFactors :=
      ⟨c3 vf.four_of_a_kind, c3 vf.three_of_a_kind, c3 vf.pair, c3 vf.sequence, c3 vf.single⟩
    let tw := s.tile_weights
    let tw := setKey tw tile (lookupD tw tile 0 * (if is_winning then 1.2 else 0.8))
    let tw := [(-1 : ℤ), 0, 1].foldl (fun w off =>
      let adjacent_num := num + off
      if 1 ≤ adjacent_num ∧ adjacent_num ≤ 9 then
        let adjacent_tile : Tile := ⟨adjacent_num, tile.suit⟩
        if containsKey w adjacent_tile then
          setKey w adjacent_tile
            (lookupD w adjacent_tile 0 * (if is_winning then 1.1 else 0.9))
        else w
      else w) tw
    let pw := setKey s.position_weights num (lookupD s.position_weights num 0 * f1)
    let f2 : ℚ := if is_winning then 0.9 else 1.1
    let rf := s.risk_factors
    let rf : RiskFactors :=
      ⟨rf.be_eaten * f2, rf.be_ponged.map (fun p => (p.1, p.2 * f2)),
       rf.be_konged * f2, rf.be_winning_tile * f2, rf.already_discarded * f2⟩
    let tw := setKey tw tile (max 0.5 (min (lookupD tw tile 0) 2.0))
    let pw := setKey pw num (max (-3) (min (lookupD pw num 0) 3))
    let cR : ℚ → ℚ := fun x => max (-10) (min x 20)
    let rf : RiskFactors :=
      ⟨cR rf.be_eaten, rf.be_ponged.map (fun p => (p.1, cR p.2)),
       cR rf.be_konged, cR rf.be_winning_tile, cR rf.already_discarded⟩
    save_weights { s with tile_weights := tw, position_weights := pw,
                          value_factors := vf, risk_factors := rf }

/-! ## Persistence model

`_save_weights` / `_load_weights` go through `json.dump` / `json.load`.
Python dict keys are dynamically typed (`position_weights` and `be_ponged`
use `int` keys, the other tables `str` keys), and `json.dump` renders every
key as a JSON string while `json.load` returns `str`-keyed dicts.  The
model below keeps the dynamic typing: a `PyVal` is the runtime value of a
weight table, and serialising-then-reparsing a value is `stringify_keys`. -/

inductive PyKey where
  | int (n : ℤ)
  | str (s : String)
deriving DecidableEq, Repr

inductive PyVal where
  | num (q : ℚ)
  | str (s : String)
  | list (l : List PyVal)
  | dict (l : List (PyKey × PyVal))

/-- How `json.dump` renders a dict key (always as a JSON string). -/
def dump_key : PyKey → PyKey
  | .int n => .str (toString n)
  | .str s => .str s

mutual
/-- `json.load(json.dump(v))`: numbers and strings survive, every dict key
comes back as a string. -/
def stringify_keys : PyVal → PyVal
  | .num q => .num q
  | .str s => .str s
  | .list l => .list (stringify_list l)
  | .dict l => .dict (stringify_entries l)

def stringify_list : List PyVal → List PyVal
  | [] => []
  | v :: vs => stringify_keys v :: stringify_list vs

def stringify_entries : List (PyKey × PyVal) → List (PyKey × PyVal)
  | [] => []
  | (k, v) :: ps => (dump_key k, stringify_keys v) :: stringify_entries ps
end

/-- What the engine finds in `mahjong_weights.json`. -/
inductive SnapshotFile where
  | missing
  | unparsable
  | parsed (v : PyVal)

inductive PyErr where
  | attributeError
deriving DecidableEq, Repr

/-- The four weight-table attributes of the engine as Python runtime
values (this is the view of the state that persistence manipulates). -/
structure PersistState where
  tile_weights : PyVal
  position_weights : PyVal
  risk_factors : PyVal
  value_factors : PyVal

def p_tile_weights : PyVal :=
  .dict ((([("万" : String), "条", "筒"].map fun ty =>
    (List.range 9).map fun i =>
      (PyKey.str (toString ((i : ℤ) + 1) ++ ty),
       PyVal.num (get_initial_weight ((i : ℤ) + 1))))).flatten)

def p_position_weights : PyVal :=
  .dict [(.int 1, .num (-2)), (.int 2, .num (-1)), (.int 3, .num 1),
         (.int 4, .num 1), (.int 5, .num 1), (.int 6, .num 1),
         (.int 7, .num 1), (.int 8, .num (-1)), (.int 9, .num (-2))]

def p_risk_factors : PyVal :=
  .dict [(.str "be_eaten", .num 2),
         (.str "be_ponged", .dict [(.int 0, .num 8), (.int 1, .num 4), (.int 2, .num 0)]),
         (.str "be_konged", .num 4),
         (.str "be_winning_tile", .num 10),
         (.str "already_discarded", .num (-5))]

def p_value_factors : PyVal :=
  .dict [(.str "four_of_a_kind", .num 20), (.str "three_of_a_kind", .num 15),
         (.str "pair", .num 10), (.str "sequence", .num 5), (.str "single", .num 1)]

/-- The built-in default weight tables as Python values. -/
def default_persist : PersistState :=
  ⟨p_tile_weights, p_position_weights, p_risk_factors, p_value_factors⟩

/-- `_save_weights`: `json.dump({"tile_weights": ..., "position_weights":
..., "risk_factors": ..., "value_factors": ...})`.  The resulting file, as
`json.load` will see it, has every dict key stringified. -/
def save_weights_file (s : PersistState) : SnapshotFile :=
  .parsed (.dict
    [(.str "tile_weights", stringify_keys s.tile_weights),
     (.str "position_weights", stringify_keys s.position_weights),
     (.str "risk_factors", stringify_keys s.risk_factors),
     (.str "value_factors", stringify_keys s.value_factors)])

/-- `_load_weights` (same behaviour in both files): missing file — keep
defaults; `json.JSONDecodeError` — caught, log, keep defaults; parsed dict
— `data.get(key, current)` for each of the four tables; any other parsed
value — `data.get` raises `AttributeError`, which is NOT in the caught
exception tuple and escapes to the caller. -/
def load_weights (f : SnapshotFile) (s : PersistState) : Except PyErr PersistState :=
  match f with
  | .missing => .ok s
  | .unparsable => .ok s
  | .parsed (.dict d) => .ok
      ⟨lookupD d (.str "tile_weights") s.tile_weights,
       lookupD d (.str "position_weights") s.position_weights,
       lookupD d (.str "risk_factors") s.risk_factors,
       lookupD d (.str "value_factors") s.value_factors⟩
  | .parsed _ => .error .attributeError

/-- `self.position_weights.get(num, 0)` on the dynamically-typed view
(only ever applied to dict values here; Python would raise otherwise). -/
def py_get_int (v : PyVal) (n : ℤ) : PyVal :=
  match v with
  | .dict l => lookupD l (.int n) (.num 0)
  | _ => .num 0

/-- `self.risk_factors["be_ponged"]`-style string access with a default,
mirroring `dict.get`. -/
def py_get_str (v : PyVal) (key : String) : PyVal :=
  match v with
  | .dict l => lookupD l (.str key) (.num 0)
  | _ => .num 0

/-! ## Specification-side definitions

These follow the wording of the spec / claims, to be compared against the
embedded code. -/

/-- §4.3's risk sum, written as the claim states it: one additive term per
danger signal, the eaten term counting matching neighbours. -/
def spec_raw_risk (s : MState) (tile : Tile) : ℚ :=
  (([(-1 : ℤ), 0, 1].countP fun off =>
      decide ((⟨tile.num + off, tile.suit⟩ : Tile) ∈ s.discard_pile)) : ℚ) *
    s.risk_factors.be_eaten
  + lookupD s.risk_factors.be_ponged (↑(s.discard_pile.count tile)) 0
  + (if s.discard_pile.count tile = 0 then s.risk_factors.be_konged else 0)
  + (if is_potential_win_tile s tile then s.risk_factors.be_winning_tile else 0)
  + (if tile ∈ s.my_discards then s.risk_factors.already_discarded else 0)

/-- The self-tuning factor of C5: 1.1 above 10, 0.9 below 5, else 1. -/
def spec_adjust_factor (risk : ℚ) : ℚ :=
  if 10 < risk then 1.1 else if risk < 5 then 0.9 else 1

/-- C5's description of the side effect: every scalar and every `be_ponged`
entry multiplied by the factor and clamped to [-10, 20]. -/
def spec_adjusted (risk : ℚ) (rf : RiskFactors) : RiskFactors :=
  let f := spec_adjust_factor risk
  let c : ℚ → ℚ := fun x => max (-10) (min (x * f) 20)
  ⟨c rf.be_eaten, rf.be_ponged.map (fun p => (p.1, c p.2)),
   c rf.be_konged, c rf.be_winning_tile, c rf.already_discarded⟩

/-- The score a tile receives when the risk self-tuning is a no-op:
`value(t) - risk(t)` as a pure function of the state. -/
def pure_score (s : MState) (t : Tile) : ℚ :=
  evaluate_tile_value s t - max (raw_risk s t) 0

/-! ## The bounded-drift invariant (C1) -/

def tw_bounded (l : List (Tile × ℚ)) : Prop :=
  ∀ p ∈ l, (0.5 : ℚ) ≤ p.2 ∧ p.2 ≤ 2.0

def pw_bounded (l : List (ℤ × ℚ)) : Prop :=
  ∀ p ∈ l, (-3 : ℚ) ≤ p.2 ∧ p.2 ≤ 3

def rf_bounded (rf : RiskFactors) : Prop :=
  ((-10 : ℚ) ≤ rf.be_eaten ∧ rf.be_eaten ≤ 20) ∧
  (∀ p ∈ rf.be_ponged, (-10 : ℚ) ≤ p.2 ∧ p.2 ≤ 20) ∧
  ((-10 : ℚ) ≤ rf.be_konged ∧ rf.be_konged ≤ 20) ∧
  ((-10 : ℚ) ≤ rf.be_winning_tile ∧ rf.be_winning_tile ≤ 20) ∧
  ((-10 : ℚ) ≤ rf.already_discarded ∧ rf.already_discarded ≤ 20)

def vf_bounded (vf : ValueFactors) : Prop :=
  ((0.5 : ℚ) ≤ vf.four_of_a_kind ∧ vf.four_of_a_kind ≤ 3.0) ∧
  ((0.5 : ℚ) ≤ vf.three_of_a_kind ∧ vf.three_of_a_kind ≤ 3.0) ∧
  ((0.5 : ℚ) ≤ vf.pair ∧ vf.pair ≤ 3.0) ∧
  ((0.5 : ℚ) ≤ vf.sequence ∧ vf.sequence ≤ 3.0) ∧
  ((0.5 : ℚ) ≤ vf.single ∧ vf.single ≤ 3.0)

/-- Every documented bound of §3: tile weights in [0.5, 2], position
weights in [-3, 3], risk scalars and `be_ponged` entries in [-10, 20],
value factors in [0.5, 3]. -/
def state_bounded (s : MState) : Prop :=
  tw_bounded s.tile_weights ∧ pw_bounded s.position_weights ∧
  rf_bounded s.risk_factors ∧ vf_bounded s.value_factors

instance (l : List (Tile × ℚ)) : Decidable (tw_bounded l) :=
  inferInstanceAs (Decidable (∀ p ∈ l, (0.5 : ℚ) ≤ p.2 ∧ p.2 ≤ 2.0))

instance (l : List (ℤ × ℚ)) : Decidable (pw_bounded l) :=
  inferInstanceAs (Decidable (∀ p ∈ l, (-3 : ℚ) ≤ p.2 ∧ p.2 ≤ 3))

instance (rf : RiskFactors) : Decidable (rf_bounded rf) :=
  inferInstanceAs (Decidable (_ ∧ (∀ p ∈ rf.be_ponged, (-10 : ℚ) ≤ p.2 ∧ p.2 ≤ 20) ∧ _ ∧ _ ∧ _))

instance (vf : ValueFactors) : Decidable (vf_bounded vf) :=
  inferInstanceAs (Decidable (_ ∧ _ ∧ _ ∧ _ ∧ _))

instance (s : MState) : Decidable (state_bounded s) :=
  inferInstanceAs (Decidable (tw_bounded _ ∧ pw_bounded _ ∧ rf_bounded _ ∧ vf_bounded _))

/-- One weight-mutating call of the claim: a `reinforce` (win/loss) or a
risk-adjustment with the raw risk value that triggered it. -/
inductive Op where
  | reinforce (is_winning : Bool)
  | adjust (risk : ℚ)

def apply_op (op : Op) (s : MState) : MState :=
  match op with
  | .reinforce b => update_experience b s
  | .adjust r => adjust_risk_factors r s

def run_ops (ops : List Op) (s : MState) : MState :=
  ops.foldl (fun s op => apply_op op s) s

/-! ## Helper lemmas -/

theorem clamp_bounds (lo hi x : ℚ) (h : lo ≤ hi) :
    lo ≤ max lo (min x hi) ∧ max lo (min x hi) ≤ hi :=
  ⟨le_max_left _ _, max_le h (min_le_right _ _)⟩

theorem setKey_forall {α β : Type} [DecidableEq α] (P : β → Prop)
    (l : List (α × β)) (k : α) (v : β)
    (hl : ∀ p ∈ l, P p.2) (hv : P v) : ∀ p ∈ setKey l k v, P p.2 := by
  induction l with
  | nil =>
    intro p hp
    rw [setKey, List.mem_singleton] at hp
    rw [hp]
    exact hv
  | cons q qs ih =>
    intro p hp
    rw [setKey] at hp
    by_cases hq : q.1 = k
    · rw [if_pos hq, List.mem_cons] at hp
      rcases hp with hp | hp
      · rw [hp]; exact hv
      · exact hl p (List.mem_cons_of_mem _ hp)
    · rw [if_neg hq, List.mem_cons] at hp
      rcases hp with hp | hp
      · rw [hp]; exact hl q (List.mem_cons_self _ _)
      · exact ih (fun r hr => hl r (List.mem_cons_of_mem _ hr)) p hp

theorem lookupD_setKey_self {α β : Type} [DecidableEq α]
    (l : List (α × β)) (k : α) (v : β) (d : β) :
    lookupD (setKey l k v) k d = v := by
  induction l with
  | nil => simp [setKey, lookupD]
  | cons q qs ih =>
    rw [setKey]
    by_cases hq : q.1 = k
    · rw [if_pos hq, lookupD, if_pos rfl]
    · rw [if_neg hq, lookupD, if_neg hq, ih]

theorem lookupD_setKey_ne {α β : Type} [DecidableEq α]
    (l : List (α × β)) (k k' : α) (v : β) (d : β) (h : k' ≠ k) :
    lookupD (setKey l k v) k' d = lookupD l k' d := by
  induction l with
  | nil =>
    show lookupD [(k, v)] k' d = d
    rw [lookupD, if_neg (fun hh => h hh.symm), lookupD]
  | cons q qs ih =>
    rw [setKey]
    by_cases hq : q.1 = k
    · rw [if_pos hq]
      show lookupD ((k, v) :: qs) k' d = lookupD (q :: qs) k' d
      rw [lookupD, lookupD, if_neg (fun hh => h hh.symm),
        if_neg (fun hh => h (hh.symm.trans hq))]
    · rw [if_neg hq]
      show lookupD (q :: setKey qs k v) k' d = lookupD (q :: qs) k' d
      rw [lookupD, lookupD]
      by_cases hq' : q.1 = k'
      · rw [if_pos hq', if_pos hq']
      · rw [if_neg hq', if_neg hq', ih]

theorem containsKey_setKey_of {α β : Type} [DecidableEq α]
    (l : List (α × β)) (k k' : α) (v : β) (h : containsKey l k' = true) :
    containsKey (setKey l k v) k' = true := by
  induction l with
  | nil => simp [containsKey] at h
  | cons q qs ih =>
    rw [setKey]
    rw [containsKey, List.any_cons] at h
    by_cases hq : q.1 = k
    · rw [if_pos hq, containsKey, List.any_cons]
      rcases Bool.or_eq_true_iff.1 h with h1 | h1
      · have hqk : q.1 = k' := by simpa using h1
        simp [hq ▸ hqk]
      · simp [h1, containsKey]
    · rw [if_neg hq, containsKey, List.any_cons]
      rcases Bool.or_eq_true_iff.1 h with h1 | h1
      · simp [h1]
      · have h2 := ih h1
        rw [containsKey] at h2
        simp [h2]

theorem foldl_inv {σ ι : Type} (P : σ → Prop) (f : σ → ι → σ) (l : List ι)
    (s : σ) (hs : P s) (hf : ∀ t i, P t → P (f t i)) : P (l.foldl f s) := by
  induction l generalizing s with
  | nil => exact hs
  | cons x xs ih => exact ih (f s x) (hf s x hs)

theorem map_eq_self_of {α : Type} (f : α → α) (l : List α)
    (h : ∀ x ∈ l, f x = x) : l.map f = l := by
  induction l with
  | nil => rfl
  | cons x xs ih =>
    rw [List.map_cons, h x (List.mem_cons_self _ _),
      ih fun y hy => h y (List.mem_cons_of_mem _ hy)]

theorem min_by_score_mem (x : Tile × ℚ) (xs : List (Tile × ℚ)) :
    min_by_score x xs ∈ x :: xs := by
  induction xs generalizing x with
  | nil => exact List.mem_cons_self _ _
  | cons y ys ih =>
    rw [min_by_score, List.foldl_cons]
    by_cases h : y.2 < x.2
    · rw [if_pos h]
      have h1 := ih y
      rw [min_by_score] at h1
      rw [List.mem_cons] at h1 ⊢
      rcases h1 with h1 | h1
      · exact Or.inr (by rw [List.mem_cons]; exact Or.inl h1)
      · exact Or.inr (by rw [List.mem_cons]; exact Or.inr h1)
    · rw [if_neg h]
      have h1 := ih x
      rw [min_by_score] at h1
      rw [List.mem_cons] at h1 ⊢
      rcases h1 with h1 | h1
      · exact Or.inl h1
      · exact Or.inr (by rw [List.mem_cons]; exact Or.inr h1)

theorem min_by_score_le (x : Tile × ℚ) (xs : List (Tile × ℚ)) :
    ∀ p ∈ x :: xs, (min_by_score x xs).2 ≤ p.2 := by
  induction xs generalizing x with
  | nil =>
    intro p hp
    rw [List.mem_singleton] at hp
    rw [hp, min_by_score, List.foldl_nil]
  | cons y ys ih =>
    intro p hp
    rw [min_by_score, List.foldl_cons]
    rw [List.mem_cons, List.mem_cons] at hp
    have ihy := ih y
    have ihx := ih x
    rw [min_by_score] at ihy ihx
    rcases hp with hp | hp | hp
    · by_cases h : y.2 < x.2
      · rw [if_pos h]
        exact le_of_lt (lt_of_le_of_lt (ihy y (List.mem_cons_self _ _)) (hp ▸ h))
      · rw [if_neg h]
        exact hp ▸ ihx x (List.mem_cons_self _ _)
    · by_cases h : y.2 < x.2
      · rw [if_pos h]
        exact hp ▸ ihy y (List.mem_cons_self _ _)
      · rw [if_neg h]
        exact le_trans (ihx x (List.mem_cons_self _ _)) (hp ▸ le_of_not_lt h)
    · by_cases h : y.2 < x.2
      · rw [if_pos h]
        exact ihy p (List.mem_cons_of_mem _ hp)
      · rw [if_neg h]
        exact ihx p (List.mem_cons_of_mem _ hp)

theorem min_by_score_first (xs : List (Tile × ℚ)) : ∀ x, ∃ l1 l2,
    x :: xs = l1 ++ min_by_score x xs :: l2 ∧
    ∀ p ∈ l1, (min_by_score x xs).2 < p.2 := by
  induction xs with
  | nil =>
    intro x
    exact ⟨[], [], rfl, by intro p hp; simp at hp⟩
  | cons y ys ih =>
    intro x
    by_cases h : y.2 < x.2
    · obtain ⟨l1, l2, heq, hlt⟩ := ih y
      have hmin : min_by_score x (y :: ys) = min_by_score y ys := by
        rw [min_by_score, List.foldl_cons, if_pos h, min_by_score]
      refine ⟨x :: l1, l2, ?_, ?_⟩
      · rw [hmin, List.cons_append]
        exact congrArg (x :: ·) heq
      · intro p hp
        rw [List.mem_cons] at hp
        rw [hmin]
        rcases hp with hp | hp
        · have hle : (min_by_score y ys).2 ≤ y.2 :=
            min_by_score_le y ys y (List.mem_cons_self _ _)
          exact hp ▸ lt_of_le_of_lt hle h
        · exact hlt p hp
    · obtain ⟨l1, l2, heq, hlt⟩ := ih x
      have hmin : min_by_score x (y :: ys) = min_by_score x ys := by
        rw [min_by_score, List.foldl_cons, if_neg h, min_by_score]
      cases l1 with
      | nil =>
        rw [List.nil_append] at heq
        injection heq with h1 h2
        refine ⟨[], y :: l2, ?_, ?_⟩
        · rw [hmin, List.nil_append, ← h1, ← h2]
        · intro p hp
          simp at hp
      | cons a l1' =>
        rw [List.cons_append] at heq
        injection heq with h1 h2
        refine ⟨x :: y :: l1', l2, ?_, ?_⟩
        · rw [hmin, List.cons_append, List.cons_append]
          exact congrArg (x :: y :: ·) h2
        · intro p hp
          rw [List.mem_cons, List.mem_cons] at hp
          rw [hmin]
          have hx : (min_by_score x ys).2 < x.2 :=
            hlt x (h1 ▸ List.mem_cons_self a l1')
          rcases hp with hp | hp | hp
          · exact hp ▸ hx
          · exact hp ▸ lt_of_lt_of_le hx (le_of_not_lt h)
          · exact hlt p (List.mem_cons_of_mem _ hp)

theorem score_tiles_fst (hand : List Tile) :
    ∀ s : MState, ((score_tiles hand s).1).map Prod.fst = hand := by
  induction hand with
  | nil => intro s; rfl
  | cons t ts ih =>
    intro s
    rw [score_tiles]
    simpa using ih (evaluate_tile_risk s t).2

/-- Fields of `update_state`: the hand is the input hand with the drawn
tile appended (if any). -/
theorem update_state_my_hand (s : MState) (pile discards hand : List Tile)
    (nt : Option Tile) :
    (update_state s pile discards hand nt).my_hand = hand ++ nt.toList := by
  cases nt <;> simp [update_state]

theorem update_state_my_discards (s : MState) (pile discards hand : List Tile)
    (nt : Option Tile) :
    (update_state s pile discards hand nt).my_discards = discards := by
  cases nt <;> rfl

/-- Scoring only mutates `risk_factors` and `snapshot`: the hand and the
discard lists survive. -/
theorem score_tiles_my_hand (l : List Tile) :
    ∀ s : MState, (score_tiles l s).2.my_hand = s.my_hand := by
  induction l with
  | nil => intro s; rfl
  | cons t ts ih => intro s; exact ih (evaluate_tile_risk s t).2

theorem score_tiles_my_discards (l : List Tile) :
    ∀ s : MState, (score_tiles l s).2.my_discards = s.my_discards := by
  induction l with
  | nil => intro s; rfl
  | cons t ts ih => intro s; exact ih (evaluate_tile_risk s t).2

/-- On a non-empty hand, `choose_tile_to_discard` yields a tile of the hand
and a state whose hand/discards are untouched. -/
theorem choose_some_of_ne_nil (s : MState) (h : s.my_hand ≠ []) :
    ∃ t s', choose_tile_to_discard s = some (t, s') ∧ t ∈ s.my_hand ∧
      s'.my_hand = s.my_hand ∧ s'.my_discards = s.my_discards := by
  cases hsc : (score_tiles s.my_hand s).1 with
  | nil =>
    exfalso
    have hf := score_tiles_fst s.my_hand s
    rw [hsc] at hf
    exact h hf.symm
  | cons x xs =>
    refine ⟨(min_by_score x xs).1, (score_tiles s.my_hand s).2, ?_, ?_, ?_, ?_⟩
    · rw [choose_tile_to_discard]
      simp only [hsc]
    · have hf := score_tiles_fst s.my_hand s
      rw [hsc] at hf
      rw [← hf]
      exact List.mem_map_of_mem Prod.fst (min_by_score_mem x xs)
    · exact score_tiles_my_hand s.my_hand s
    · exact score_tiles_my_discards s.my_hand s

/-- C2.  The claim's table −5/−2/0 is implemented by `major.py`, but
`mahjong_ai.py`'s `{-5: 0, -2: 1}.get(discard_count, 0)` has the keys and
values of the intended `{0: -5, 1: -2}` swapped: a (non-negative) count
never hits the negative keys, so the default 0 is always returned. -/
theorem c2_remaining_weight (s : MState) (tile : Tile) (pile : List Tile) :
    get_remaining_weight s tile = 0 ∧
    mj_get_remaining_weight pile tile =
      (if pile.count tile = 0 then -5
       else if pile.count tile = 1 then -2 else 0) := by
  constructor
  · rw [get_remaining_weight]
    simp only [lookupD]
    have h5 : ¬((-5 : ℤ) = ((s.discard_pile.count tile : ℤ))) := by omega
    have h2 : ¬((-2 : ℤ) = ((s.discard_pile.count tile : ℤ))) := by omega
    simp [h5, h2]
  · rw [mj_get_remaining_weight]
    split_ifs <;> rfl

/-- C9.  With `last_discarded_tile` unset, `update_experience` returns
immediately in both implementations: the state (all four weight tables,
the observation fields and the saved snapshot) is unchanged. -/
theorem c9_reinforce_noop (s : MState) (b : Bool)
    (h : s.last_discarded_tile = none) :
    update_experience b s = s ∧ mj_update_experience b s = s := by
  constructor
  · rw [update_experience, h]
  · rw [mj_update_experience, h]

theorem c9_witness :
    default_state.last_discarded_tile = none ∧
    (update_experience true default_state = default_state ∧
     mj_update_experience true default_state = default_state) :=
  ⟨rfl, c9_reinforce_noop default_state true rfl⟩

/-- C6.  `choose_tile_to_discard` returns the first tile whose score
`value(t) - risk(t)` (as computed in iteration order, threading the risk
side effects) is minimal: the score list decomposes as `l1 ++ (t, q) :: l2`
with `q` below-or-equal every score and strictly below every earlier one;
on a singleton hand the single tile is returned. -/
theorem c6_choose_stable_min (s : MState) (h : s.my_hand ≠ []) :
    ∃ t s' q l1 l2,
      choose_tile_to_discard s = some (t, s') ∧
      t ∈ s.my_hand ∧
      (score_tiles s.my_hand s).1 = l1 ++ (t, q) :: l2 ∧
      (∀ p ∈ (score_tiles s.my_hand s).1, q ≤ p.2) ∧
      (∀ p ∈ l1, q < p.2) ∧
      (∀ t0, s.my_hand = [t0] → t = t0) := by
  cases hsc : (score_tiles s.my_hand s).1 with
  | nil =>
    exfalso
    have hf := score_tiles_fst s.my_hand s
    rw [hsc] at hf
    exact h hf.symm
  | cons x xs =>
    obtain ⟨l1, l2, heq, hlt⟩ := min_by_score_first xs x
    refine ⟨(min_by_score x xs).1, (score_tiles s.my_hand s).2,
      (min_by_score x xs).2, l1, l2, ?_, ?_, ?_, ?_, hlt, ?_⟩
    · rw [choose_tile_to_discard]
      simp only [hsc]
    · have hf := score_tiles_fst s.my_hand s
      rw [hsc] at hf
      rw [← hf]
      exact List.mem_map_of_mem Prod.fst (min_by_score_mem x xs)
    · exact heq
    · intro p hp
      exact min_by_score_le x xs p hp
    · intro t0 h0
      have hf := score_tiles_fst s.my_hand s
      rw [hsc, h0, List.map_cons] at hf
      injection hf with hf1 hf2
      have hxs : xs = [] := List.map_eq_nil_iff.1 hf2
      rw [hxs]
      exact hf1

def c6_state : MState := { default_state with my_hand := [⟨1, Suit.wan⟩] }

theorem c6_witness :
    c6_state.my_hand ≠ [] ∧
    (∃ t s' q l1 l2,
      choose_tile_to_discard c6_state = some (t, s') ∧
      t ∈ c6_state.my_hand ∧
      (score_tiles c6_state.my_hand c6_state).1 = l1 ++ (t, q) :: l2 ∧
      (∀ p ∈ (score_tiles c6_state.my_hand c6_state).1, q ≤ p.2) ∧
      (∀ p ∈ l1, q < p.2) ∧
      (∀ t0, c6_state.my_hand = [t0] → t = t0)) :=
  ⟨List.cons_ne_nil _ _, c6_choose_stable_min c6_state (List.cons_ne_nil _ _)⟩

/-- C10.  Whenever `update_state` leaves a non-empty hand (some tile held
or a tile drawn), `play` succeeds, returns a tile of that hand, and removes
exactly one occurrence of it; with no tiles at all, `choose_tile_to_discard`
and `play` produce no value (Python raises `ValueError` from `min`). -/
theorem c10_play_safe (s : MState) (pile discards hand : List Tile)
    (nt : Option Tile) (h : hand ≠ [] ∨ nt ≠ none) :
    (∃ t s', play s pile discards hand nt = some (t, s') ∧
      t ∈ hand ++ nt.toList ∧
      s'.my_hand.count t + 1 = (hand ++ nt.toList).count t ∧
      (∀ u, u ≠ t → s'.my_hand.count u = (hand ++ nt.toList).count u) ∧
      s'.my_discards = discards ++ [t] ∧
      s'.last_discarded_tile = some t) ∧
    (play s pile discards [] none = none ∧
     choose_tile_to_discard (update_state s pile discards [] none) = none) := by
  constructor
  · have hhand := update_state_my_hand s pile discards hand nt
    have hne : (update_state s pile discards hand nt).my_hand ≠ [] := by
      rw [hhand]
      intro hcon
      rw [List.append_eq_nil] at hcon
      rcases h with h | h
      · exact h hcon.1
      · cases nt with
        | none => exact h rfl
        | some t => simp at hcon
    obtain ⟨t, s2, hch, hmem, hh2, hd2⟩ :=
      choose_some_of_ne_nil (update_state s pile discards hand nt) hne
    refine ⟨t, { s2 with my_hand := s2.my_hand.erase t,
                         my_discards := s2.my_discards ++ [t],
                         last_discarded_tile := some t }, ?_, ?_, ?_, ?_, ?_, ?_⟩
    · rw [play, hch]
    · rw [hhand] at hmem
      exact hmem
    · show (s2.my_hand.erase t).count t + 1 = _
      rw [List.count_erase_self, hh2, hhand]
      have hpos : 0 < (hand ++ nt.toList).count t := by
        rw [hhand] at hmem
        exact List.count_pos_iff.2 hmem
      omega
    · intro u hu
      show (s2.my_hand.erase t).count u = _
      rw [List.count_erase_of_ne hu, hh2, hhand]
    · show s2.my_discards ++ [t] = discards ++ [t]
      rw [hd2, update_state_my_discards]
    · rfl
  · constructor
    · rfl
    · rfl

theorem c10_witness :
    (([(⟨1, Suit.wan⟩ : Tile)] : List Tile) ≠ [] ∨ (none : Option Tile) ≠ none) ∧
    ((∃ t s', play default_state [] [] [⟨1, Suit.wan⟩] none = some (t, s') ∧
      t ∈ ([(⟨1, Suit.wan⟩ : Tile)] : List Tile) ++ (none : Option Tile).toList ∧
      s'.my_hand.count t + 1 =
        (([(⟨1, Suit.wan⟩ : Tile)] : List Tile) ++ (none : Option Tile).toList).count t ∧
      (∀ u, u ≠ t → s'.my_hand.count u =
        (([(⟨1, Suit.wan⟩ : Tile)] : List Tile) ++ (none : Option Tile).toList).count u) ∧
      s'.my_discards = [] ++ [t] ∧
      s'.last_discarded_tile = some t) ∧
    (play default_state [] [] [] none = none ∧
     choose_tile_to_discard (update_state default_state [] [] [] none) = none)) :=
  ⟨Or.inl (List.cons_ne_nil _ _),
   c10_play_safe default_state [] [] [⟨1, Suit.wan⟩] none (Or.inl (List.cons_ne_nil _ _))⟩

/-- C3.  Saving the built-in defaults and immediately loading the written
snapshot does NOT reproduce the state: `json.dump` renders the integer keys
of `position_weights` (and of the nested `be_ponged` table) as strings, and
`json.load` keeps them as strings, so the integer-keyed lookups
(`position_weights.get(num, 0)`, `be_ponged.get(discard_count, 0)`) miss
every entry afterwards — rank 1's weight reads as 0 instead of −2, and the
pong table reads as 0 instead of 8 at count 0. -/
theorem c3_roundtrip_loses_int_keys :
    load_weights (save_weights_file default_persist) default_persist =
      .ok ⟨stringify_keys p_tile_weights, stringify_keys p_position_weights,
           stringify_keys p_risk_factors, stringify_keys p_value_factors⟩ ∧
    stringify_keys p_position_weights =
      .dict [(.str "1", .num (-2)), (.str "2", .num (-1)), (.str "3", .num 1),
             (.str "4", .num 1), (.str "5", .num 1), (.str "6", .num 1),
             (.str "7", .num 1), (.str "8", .num (-1)), (.str "9", .num (-2))] ∧
    py_get_int p_position_weights 1 = .num (-2) ∧
    py_get_int (stringify_keys p_position_weights) 1 = .num 0 ∧
    py_get_int (py_get_str p_risk_factors "be_ponged") 0 = .num 8 ∧
    py_get_int (py_get_str (stringify_keys p_risk_factors) "be_ponged") 0 = .num 0 ∧
    stringify_keys p_position_weights ≠ p_position_weights := by
  refine ⟨rfl, rfl, rfl, rfl, rfl, rfl, ?_⟩
  intro hcon
  have h2 : stringify_keys p_position_weights =
      PyVal.dict [(.str "1", .num (-2)), (.str "2", .num (-1)), (.str "3", .num 1),
             (.str "4", .num 1), (.str "5", .num 1), (.str "6", .num 1),
             (.str "7", .num 1), (.str "8", .num (-1)), (.str "9", .num (-2))] := rfl
  rw [h2, p_position_weights] at hcon
  simp at hcon

/-- C8 (counterexample).  A snapshot file whose content is valid JSON but
not an object — here the JSON array `[]` — parses fine, and then
`data.get('tile_weights', ...)` raises `AttributeError`, which is not in
the `except (json.JSONDecodeError, FileNotFoundError)` tuple: the
exception escapes to the caller instead of the defaults being kept. -/
theorem c8_counterexample :
    load_weights (.parsed (.list [])) default_persist =
      .error .attributeError := rfl

/-- C8 (amended).  `_load_weights` keeps the current (default) state on a
missing file and on content that fails JSON parsing; when the content
parses to an object, each of the four top-level keys that is present fully
replaces the corresponding table and each absent key keeps the default;
when it parses to anything else (number, string, array), `data.get` raises
`AttributeError` to the caller. -/
theorem c8_load_behaviour (s : PersistState) :
    load_weights .missing s = .ok s ∧
    load_weights .unparsable s = .ok s ∧
    (∀ d : List (PyKey × PyVal),
      load_weights (.parsed (.dict d)) s =
        .ok ⟨lookupD d (.str "tile_weights") s.tile_weights,
             lookupD d (.str "position_weights") s.position_weights,
             lookupD d (.str "risk_factors") s.risk_factors,
             lookupD d (.str "value_factors") s.value_factors⟩) ∧
    (∀ v : PyVal,
      load_weights (.parsed (.dict [(.str "tile_weights", v)])) s =
        .ok ⟨v, s.position_weights, s.risk_factors, s.value_factors⟩) ∧
    (∀ q : ℚ, load_weights (.parsed (.num q)) s = .error .attributeError) ∧
    (∀ str1 : String, load_weights (.parsed (.str str1)) s = .error .attributeError) ∧
    (∀ l : List PyVal, load_weights (.parsed (.list l)) s = .error .attributeError) := by
  refine ⟨rfl, rfl, fun d => rfl, fun v => ?_, fun q => rfl, fun str1 => rfl, fun l => rfl⟩
  have h1 : ¬(PyKey.str "tile_weights" = PyKey.str "position_weights") := by decide
  have h2 : ¬(PyKey.str "tile_weights" = PyKey.str "risk_factors") := by decide
  have h3 : ¬(PyKey.str "tile_weights" = PyKey.str "value_factors") := by decide
  simp only [load_weights, lookupD]
  simp [h1, h2, h3]

/-- The incremental accumulation in `evaluate_tile_risk` equals the
five-term sum of §4.3 (the eaten term as count-of-matching-neighbours
times `be_eaten`). -/
theorem raw_risk_eq_spec (s : MState) (t : Tile) :
    raw_risk s t = spec_raw_risk s t := by
  rw [raw_risk, spec_raw_risk]
  by_cases h1 : (⟨t.num + -1, t.suit⟩ : Tile) ∈ s.discard_pile <;>
  by_cases h2 : (⟨t.num + 0, t.suit⟩ : Tile) ∈ s.discard_pile <;>
  by_cases h3 : (⟨t.num + 1, t.suit⟩ : Tile) ∈ s.discard_pile <;>
    simp only [List.foldl_cons, List.foldl_nil, List.countP_cons, List.countP_nil,
      h1, h2, h3, if_pos, if_neg, decide_eq_true_eq, decide_True, decide_False,
      if_true, if_false, not_false_iff]
  all_goals push_cast
  all_goals ring_nf

/-- `major.py`'s `_adjust_risk_factors` computes exactly the uniform
multiply-then-clamp of the claim. -/
theorem mj_adjust_eq (r : ℚ) (s2 : MState) :
    mj_adjust_risk_factors r s2 =
      save_weights { s2 with risk_factors := spec_adjusted r s2.risk_factors } := by
  simp only [mj_adjust_risk_factors, spec_adjusted, spec_adjust_factor]
  by_cases hr1 : 10 < r
  · rw [if_pos hr1, if_pos hr1]
    simp only [List.map_map]
    rfl
  · by_cases hr2 : r < 5
    · rw [if_neg hr1, if_pos hr2, if_neg hr1, if_pos hr2]
      simp only [List.map_map]
      rfl
    · rw [if_neg hr1, if_neg hr2, if_neg hr1, if_neg hr2]
      simp only [mul_one, List.map_map]

/-- C5.  `evaluate_tile_risk` returns the raw additive sum floored at 0
(hence ≥ 0); as a side effect every risk scalar and every `be_ponged`
entry is multiplied by 1.1 / 0.9 / 1 according to the pre-floor sum,
clamped to [-10, 20], the other tables are untouched, and the updated
state is persisted; `major.py`'s branch-then-clamp variant computes the
same adjustment. -/
theorem c5_risk_eval (s : MState) (t : Tile) :
    0 ≤ (evaluate_tile_risk s t).1 ∧
    (evaluate_tile_risk s t).1 = max (spec_raw_risk s t) 0 ∧
    (evaluate_tile_risk s t).2.risk_factors =
      spec_adjusted (spec_raw_risk s t) s.risk_factors ∧
    (evaluate_tile_risk s t).2.tile_weights = s.tile_weights ∧
    (evaluate_tile_risk s t).2.position_weights = s.position_weights ∧
    (evaluate_tile_risk s t).2.value_factors = s.value_factors ∧
    (evaluate_tile_risk s t).2.snapshot =
      some ⟨s.tile_weights, s.position_weights,
            spec_adjusted (spec_raw_risk s t) s.risk_factors, s.value_factors⟩ ∧
    (∀ r : ℚ, ∀ s2 : MState,
      mj_adjust_risk_factors r s2 =
        save_weights { s2 with risk_factors := spec_adjusted r s2.risk_factors }) := by
  refine ⟨le_max_right _ _, ?_, ?_, rfl, rfl, rfl, ?_, mj_adjust_eq⟩
  · show max (raw_risk s t) 0 = max (spec_raw_risk s t) 0
    rw [raw_risk_eq_spec]
  · show (adjust_risk_factors (raw_risk s t) s).risk_factors = _
    rw [raw_risk_eq_spec]
    rfl
  · show (adjust_risk_factors (raw_risk s t) s).snapshot = _
    rw [raw_risk_eq_spec]
    rfl

/-! ## C1: bound preservation of the mahjong_ai.py mutators -/

theorem update_tile_weights_bounded (tile : Tile) (num : ℤ) (factor : ℚ)
    (tw : List (Tile × ℚ)) (h : tw_bounded tw) :
    tw_bounded (update_tile_weights tile num factor tw) := by
  rw [update_tile_weights]
  apply foldl_inv tw_bounded
  · exact setKey_forall (fun x => (0.5 : ℚ) ≤ x ∧ x ≤ 2.0) tw _ _ h
      (clamp_bounds 0.5 2.0 _ (by norm_num))
  · intro w off hw
    dsimp only
    by_cases hin : 1 ≤ num + off ∧ num + off ≤ 9
    · rw [if_pos hin]
      by_cases hck : containsKey w (⟨num + off, tile.suit⟩ : Tile) = true
      · rw [if_pos hck]
        exact setKey_forall (fun x => (0.5 : ℚ) ≤ x ∧ x ≤ 2.0) w _ _ hw
          (clamp_bounds 0.5 2.0 _ (by norm_num))
      · rw [if_neg hck]
        exact hw
    · rw [if_neg hin]
      exact hw

theorem vf_step_four (vf : ValueFactors) (c : Prop) [Decidable c] (x : ℚ)
    (h : vf_bounded vf) (hx : (0.5 : ℚ) ≤ x ∧ x ≤ 3.0) :
    vf_bounded (if c then { vf with four_of_a_kind := x } else vf) := by
  split_ifs
  · exact ⟨hx, h.2.1, h.2.2.1, h.2.2.2.1, h.2.2.2.2⟩
  · exact h

theorem vf_step_three (vf : ValueFactors) (c : Prop) [Decidable c] (x : ℚ)
    (h : vf_bounded vf) (hx : (0.5 : ℚ) ≤ x ∧ x ≤ 3.0) :
    vf_bounded (if c then { vf with three_of_a_kind := x } else vf) := by
  split_ifs
  · exact ⟨h.1, hx, h.2.2.1, h.2.2.2.1, h.2.2.2.2⟩
  · exact h

theorem vf_step_pair (vf : ValueFactors) (c : Prop) [Decidable c] (x : ℚ)
    (h : vf_bounded vf) (hx : (0.5 : ℚ) ≤ x ∧ x ≤ 3.0) :
    vf_bounded (if c then { vf with pair := x } else vf) := by
  split_ifs
  · exact ⟨h.1, h.2.1, hx, h.2.2.2.1, h.2.2.2.2⟩
  · exact h

theorem vf_step_seq (vf : ValueFactors) (c : Prop) [Decidable c] (x : ℚ)
    (h : vf_bounded vf) (hx : (0.5 : ℚ) ≤ x ∧ x ≤ 3.0) :
    vf_bounded (if c then { vf with sequence := x } else vf) := by
  split_ifs
  · exact ⟨h.1, h.2.1, h.2.2.1, hx, h.2.2.2.2⟩
  · exact h

theorem update_value_factors_bounded (tile : Tile) (factor : ℚ) (s : MState)
    (h : vf_bounded s.value_factors) :
    vf_bounded (update_value_factors tile factor s).value_factors := by
  rw [update_value_factors]
  refine vf_step_seq _ _ _ ?_ (clamp_bounds 0.5 3.0 _ (by norm_num))
  refine vf_step_pair _ _ _ ?_ (clamp_bounds 0.5 3.0 _ (by norm_num))
  refine vf_step_three _ _ _ ?_ (clamp_bounds 0.5 3.0 _ (by norm_num))
  exact vf_step_four _ _ _ h (clamp_bounds 0.5 3.0 _ (by norm_num))

theorem update_position_weights_bounded (num : ℤ) (factor : ℚ) (s : MState)
    (h : pw_bounded s.position_weights) :
    pw_bounded (update_position_weights num factor s).position_weights := by
  rw [update_position_weights]
  exact setKey_forall (fun x => (-3 : ℚ) ≤ x ∧ x ≤ 3) s.position_weights _ _ h
    (clamp_bounds (-3) 3 _ (by norm_num))

theorem rf_map_clamp_bounded (rf : RiskFactors) (g : ℚ → ℚ)
    (hg : ∀ x : ℚ, (-10 : ℚ) ≤ g x ∧ g x ≤ 20) :
    rf_bounded ⟨g rf.be_eaten, rf.be_ponged.map (fun p => (p.1, g p.2)),
                g rf.be_konged, g rf.be_winning_tile, g rf.already_discarded⟩ := by
  refine ⟨hg _, ?_, hg _, hg _, hg _⟩
  intro p hp
  rw [List.mem_map] at hp
  obtain ⟨q, hq, rfl⟩ := hp
  exact hg q.2

theorem update_risk_factors_bounded (factor : ℚ) (s : MState) :
    rf_bounded (update_risk_factors factor s).risk_factors := by
  have h := rf_map_clamp_bounded s.risk_factors
    (fun x => max (-10) (min (x * (if 1 < factor then 0.9 else 1.1)) 20))
    (fun x => clamp_bounds (-10) 20 _ (by norm_num))
  exact h

theorem adjust_risk_factors_rf_bounded (r : ℚ) (s : MState) :
    rf_bounded (adjust_risk_factors r s).risk_factors := by
  have h := rf_map_clamp_bounded s.risk_factors
    (fun x => max (-10) (min (x * (if 10 < r then 1.1 else if r < 5 then 0.9 else 1)) 20))
    (fun x => clamp_bounds (-10) 20 _ (by norm_num))
  exact h

/-- The four table projections of a reinforcement step with a set last
discard. -/
theorem update_experience_tile_weights (b : Bool) (s : MState) (tile : Tile)
    (h : s.last_discarded_tile = some tile) :
    (update_experience b s).tile_weights =
      update_tile_weights tile tile.num (if b then 1.1 else 0.9) s.tile_weights := by
  rw [update_experience, h]
  rfl

theorem update_experience_position_weights (b : Bool) (s : MState) (tile : Tile)
    (h : s.last_discarded_tile = some tile) :
    (update_experience b s).position_weights =
      (update_position_weights tile.num (if b then 1.1 else 0.9) s).position_weights := by
  rw [update_experience, h]
  rfl

theorem update_experience_risk_factors (b : Bool) (s : MState) (tile : Tile)
    (h : s.last_discarded_tile = some tile) :
    (update_experience b s).risk_factors =
      (update_risk_factors (if b then 1.1 else 0.9) s).risk_factors := by
  rw [update_experience, h]
  rfl

theorem update_experience_value_factors (b : Bool) (s : MState) (tile : Tile)
    (h : s.last_discarded_tile = some tile) :
    (update_experience b s).value_factors =
      (update_value_factors tile (if b then 1.1 else 0.9) s).value_factors := by
  rw [update_experience, h]
  rfl

theorem update_experience_bounded (b : Bool) (s : MState)
    (hs : state_bounded s) : state_bounded (update_experience b s) := by
  cases hlast : s.last_discarded_tile with
  | none =>
    rw [update_experience, hlast]
    exact hs
  | some tile =>
    refine ⟨?_, ?_, ?_, ?_⟩
    · rw [update_experience_tile_weights b s tile hlast]
      exact update_tile_weights_bounded _ _ _ _ hs.1
    · rw [update_experience_position_weights b s tile hlast]
      exact update_position_weights_bounded _ _ _ hs.2.1
    · rw [update_experience_risk_factors b s tile hlast]
      exact update_risk_factors_bounded _ _
    · rw [update_experience_value_factors b s tile hlast]
      exact update_value_factors_bounded _ _ _ hs.2.2.2

theorem adjust_risk_factors_bounded (r : ℚ) (s : MState)
    (hs : state_bounded s) : state_bounded (adjust_risk_factors r s) := by
  refine ⟨hs.1, hs.2.1, adjust_risk_factors_rf_bounded r s, hs.2.2.2⟩

/-- C1 (counterexample).  Two violations of the claim as stated.
(a) From the built-in defaults, a risk-adjustment call leaves
`value_factors` untouched, and the default value factors (20, 15, 10, 5)
lie far outside [0.5, 3.0] — so "after every risk-adjustment call every
value factor is in [0.5, 3.0]" fails already at the defaults.
(b) In `major.py`, `update_experience` multiplies the ±1-neighbour tile
weights by 1.1/0.9 but the final clamp pass only clamps
`tile_weights[tile]`: from a state satisfying every bound (neighbour 4万
at the top of its range, 2.0), one winning update drives 4万 to 2.2 > 2.0. -/
theorem c1_counterexample :
    ((evaluate_tile_risk default_state ⟨5, Suit.wan⟩).2.value_factors.four_of_a_kind = 20 ∧
      ¬ ((evaluate_tile_risk default_state ⟨5, Suit.wan⟩).2.value_factors.four_of_a_kind ≤ 3.0)) ∧
    (state_bounded { default_state with
        tile_weights := setKey default_tile_weights ⟨4, Suit.wan⟩ 2.0,
        value_factors := ⟨3, 3, 3, 3, 1⟩,
        last_discarded_tile := some ⟨5, Suit.wan⟩ } ∧
      lookupD (mj_update_experience true { default_state with
        tile_weights := setKey default_tile_weights ⟨4, Suit.wan⟩ 2.0,
        value_factors := ⟨3, 3, 3, 3, 1⟩,
        last_discarded_tile := some ⟨5, Suit.wan⟩ }).tile_weights ⟨4, Suit.wan⟩ 0 = 11/5 ∧
      ¬ ((11 : ℚ)/5 ≤ 2.0)) := by
  with_unfolding_all exact of_decide_eq_true rfl

/-- C1 (amended).  For the `mahjong_ai.py` mutators the bounded-drift
invariant does hold as a preservation property: starting from any state in
which every documented bound already holds, every `update_experience` call
and every `_adjust_risk_factors` call — and hence any sequence of such
calls — keeps every tile weight in [0.5, 2.0], every position weight in
[-3, 3], every risk scalar and `be_ponged` entry in [-10, 20], and every
value factor in [0.5, 3.0]. -/
theorem c1_bounded_drift (s : MState) (hs : state_bounded s) (ops : List Op) :
    state_bounded (run_ops ops s) := by
  rw [run_ops]
  apply foldl_inv state_bounded _ _ _ hs
  intro t op ht
  cases op with
  | reinforce b => exact update_experience_bounded b t ht
  | adjust r => exact adjust_risk_factors_bounded r t ht

def c1_state : MState :=
  { default_state with
      value_factors := ⟨3, 3, 3, 3, 1⟩,
      last_discarded_tile := some ⟨5, Suit.wan⟩,
      my_hand := [⟨5, Suit.wan⟩, ⟨6, Suit.wan⟩] }

theorem c1_witness :
    state_bounded c1_state ∧
    state_bounded (run_ops [.reinforce true, .adjust 12, .reinforce false] c1_state) :=
  ⟨by with_unfolding_all exact of_decide_eq_true rfl,
   c1_bounded_drift c1_state (by with_unfolding_all exact of_decide_eq_true rfl)
     [.reinforce true, .adjust 12, .reinforce false]⟩

theorem tile_ne_of_num_ne (a b : ℤ) (su : Suit) (h : a ≠ b) :
    (⟨a, su⟩ : Tile) ≠ ⟨b, su⟩ :=
  fun he => h (congrArg Tile.num he)

theorem tile_ne_of (u : Tile) (k : ℤ) (su : Suit) (h : u.suit = su → u.num ≠ k) :
    u ≠ (⟨k, su⟩ : Tile) :=
  fun he => h (by rw [he]) (by rw [he])

theorem update_tile_weights_spec (n : ℤ) (su : Suit) (factor : ℚ)
    (tw : List (Tile × ℚ)) (h1 : 1 ≤ n) (h9 : n ≤ 9)
    (hkeys : ∀ m : ℤ, 1 ≤ m → m ≤ 9 → containsKey tw (⟨m, su⟩ : Tile) = true) :
    lookupD (update_tile_weights ⟨n, su⟩ n factor tw) (⟨n, su⟩ : Tile) 0 =
      max 0.5 (min (max 0.5 (min (lookupD tw (⟨n, su⟩ : Tile) 0 *
        (if 1 < factor then 1.2 else 0.8)) 2.0) * (if 1 < factor then 1.1 else 0.9)) 2.0) ∧
    (∀ m : ℤ, (m = n - 1 ∨ m = n + 1) → 1 ≤ m → m ≤ 9 →
      lookupD (update_tile_weights ⟨n, su⟩ n factor tw) (⟨m, su⟩ : Tile) 0 =
        max 0.5 (min (lookupD tw (⟨m, su⟩ : Tile) 0 * (if 1 < factor then 1.1 else 0.9)) 2.0)) ∧
    (∀ u : Tile, (u.suit = su → u.num < n - 1 ∨ n + 1 < u.num) → ∀ d : ℚ,
      lookupD (update_tile_weights ⟨n, su⟩ n factor tw) u d = lookupD tw u d) := by
  rw [update_tile_weights]
  dsimp only
  simp only [List.foldl_cons, List.foldl_nil, add_zero]
  set k0 : Tile := ⟨n, su⟩ with hk0
  set km : Tile := ⟨n + -1, su⟩ with hkm
  set kp : Tile := ⟨n + 1, su⟩ with hkp
  have hne_mk0 : km ≠ k0 := by rw [hkm, hk0]; exact tile_ne_of_num_ne _ _ _ (by omega)
  have hne_k0m : k0 ≠ km := by rw [hkm, hk0]; exact tile_ne_of_num_ne _ _ _ (by omega)
  have hne_k0p : k0 ≠ kp := by rw [hkp, hk0]; exact tile_ne_of_num_ne _ _ _ (by omega)
  have hne_pk0 : kp ≠ k0 := by rw [hkp, hk0]; exact tile_ne_of_num_ne _ _ _ (by omega)
  have hne_mp : km ≠ kp := by rw [hkm, hkp]; exact tile_ne_of_num_ne _ _ _ (by omega)
  have hne_pm : kp ≠ km := by rw [hkm, hkp]; exact tile_ne_of_num_ne _ _ _ (by omega)
  have hck0 : containsKey tw k0 = true := hkeys n h1 h9
  by_cases hlo : 2 ≤ n
  · -- the rank −1 neighbour exists
    rw [if_pos (show 1 ≤ n + -1 ∧ n + -1 ≤ 9 by omega)]
    have hckm : containsKey tw km = true := by
      rw [hkm]; exact hkeys (n + -1) (by omega) (by omega)
    rw [if_pos (containsKey_setKey_of tw k0 km _ hckm)]
    rw [if_pos (show 1 ≤ n ∧ n ≤ 9 by omega)]
    rw [if_pos (containsKey_setKey_of _ km k0 _ (containsKey_setKey_of tw k0 k0 _ hck0))]
    by_cases hhi : n ≤ 8
    · -- the rank +1 neighbour exists too
      rw [if_pos (show 1 ≤ n + 1 ∧ n + 1 ≤ 9 by omega)]
      have hckp : containsKey tw kp = true := by
        rw [hkp]; exact hkeys (n + 1) (by omega) (by omega)
      rw [if_pos (containsKey_setKey_of _ k0 kp _ (containsKey_setKey_of _ km kp _
        (containsKey_setKey_of tw k0 kp _ hckp)))]
      refine ⟨?_, ?_, ?_⟩
      · rw [lookupD_setKey_ne _ _ _ _ _ hne_k0p, lookupD_setKey_self,
          lookupD_setKey_ne _ _ _ _ _ hne_k0m, lookupD_setKey_self]
      · intro m hm hm1 hm9
        rcases hm with rfl | rfl
        · rw [show (⟨n - 1, su⟩ : Tile) = km by rw [hkm]; norm_num; ring]
          rw [lookupD_setKey_ne _ _ _ _ _ hne_mp,
            lookupD_setKey_ne _ _ _ _ _ hne_mk0, lookupD_setKey_self,
            lookupD_setKey_ne _ _ _ _ _ hne_mk0]
        · rw [show (⟨n + 1, su⟩ : Tile) = kp from rfl]
          rw [lookupD_setKey_self, lookupD_setKey_ne _ _ _ _ _ hne_pk0,
            lookupD_setKey_ne _ _ _ _ _ hne_pm, lookupD_setKey_ne _ _ _ _ _ hne_pk0]
      · intro u hu d
        have hu0 : u ≠ k0 := by
          rw [hk0]; exact tile_ne_of u n su (fun hs => by rcases hu hs with h | h <;> omega)
        have hum : u ≠ km := by
          rw [hkm]; exact tile_ne_of u (n + -1) su (fun hs => by rcases hu hs with h | h <;> omega)
        have hup : u ≠ kp := by
          rw [hkp]; exact tile_ne_of u (n + 1) su (fun hs => by rcases hu hs with h | h <;> omega)
        rw [lookupD_setKey_ne _ _ _ _ _ hup, lookupD_setKey_ne _ _ _ _ _ hu0,
          lookupD_setKey_ne _ _ _ _ _ hum, lookupD_setKey_ne _ _ _ _ _ hu0]
    · -- n = 9: no rank +1 neighbour
      rw [if_neg (show ¬(1 ≤ n + 1 ∧ n + 1 ≤ 9) by omega)]
      refine ⟨?_, ?_, ?_⟩
      · rw [lookupD_setKey_self, lookupD_setKey_ne _ _ _ _ _ hne_k0m, lookupD_setKey_self]
      · intro m hm hm1 hm9
        rcases hm with rfl | rfl
        · rw [show (⟨n - 1, su⟩ : Tile) = km by rw [hkm]; norm_num; ring]
          rw [lookupD_setKey_ne _ _ _ _ _ hne_mk0, lookupD_setKey_self,
            lookupD_setKey_ne _ _ _ _ _ hne_mk0]
        · exfalso; omega
      · intro u hu d
        have hu0 : u ≠ k0 := by
          rw [hk0]; exact tile_ne_of u n su (fun hs => by rcases hu hs with h | h <;> omega)
        have hum : u ≠ km := by
          rw [hkm]; exact tile_ne_of u (n + -1) su (fun hs => by rcases hu hs with h | h <;> omega)
        rw [lookupD_setKey_ne _ _ _ _ _ hu0, lookupD_setKey_ne _ _ _ _ _ hum,
          lookupD_setKey_ne _ _ _ _ _ hu0]
  · -- n = 1: no rank −1 neighbour
    rw [if_neg (show ¬(1 ≤ n + -1 ∧ n + -1 ≤ 9) by omega)]
    rw [if_pos (show 1 ≤ n ∧ n ≤ 9 by omega)]
    rw [if_pos (containsKey_setKey_of tw k0 k0 _ hck0)]
    rw [if_pos (show 1 ≤ n + 1 ∧ n + 1 ≤ 9 by omega)]
    have hckp : containsKey tw kp = true := by
      rw [hkp]; exact hkeys (n + 1) (by omega) (by omega)
    rw [if_pos (containsKey_setKey_of _ k0 kp _ (containsKey_setKey_of tw k0 kp _ hckp))]
    refine ⟨?_, ?_, ?_⟩
    · rw [lookupD_setKey_ne _ _ _ _ _ hne_k0p, lookupD_setKey_self, lookupD_setKey_self]
    · intro m hm hm1 hm9
      rcases hm with rfl | rfl
      · exfalso; omega
      · rw [show (⟨n + 1, su⟩ : Tile) = kp from rfl]
        rw [lookupD_setKey_self, lookupD_setKey_ne _ _ _ _ _ hne_pk0,
          lookupD_setKey_ne _ _ _ _ _ hne_pk0]
    · intro u hu d
      have hu0 : u ≠ k0 := by
        rw [hk0]; exact tile_ne_of u n su (fun hs => by rcases hu hs with h | h <;> omega)
      have hup : u ≠ kp := by
        rw [hkp]; exact tile_ne_of u (n + 1) su (fun hs => by rcases hu hs with h | h <;> omega)
      rw [lookupD_setKey_ne _ _ _ _ _ hup, lookupD_setKey_ne _ _ _ _ _ hu0,
        lookupD_setKey_ne _ _ _ _ _ hu0]

theorem containsKey_default_tw (m : ℤ) (su : Suit) (h1 : 1 ≤ m) (h9 : m ≤ 9) :
    containsKey default_tile_weights (⟨m, su⟩ : Tile) = true := by
  interval_cases m <;> cases su <;> decide

/-- C4 (counterexample).  The offset loop `[-1, 0, 1]` includes 0, so the
discarded tile is hit a second time by the neighbour factor: from the
defaults with last discard 5万 (weight 1.5), a winning update yields
1.5·1.2·1.1 = 1.98 (in both implementations), not the claimed
clamp(1.5·1.2) = 1.8. -/
theorem c4_counterexample :
    lookupD (update_experience true { default_state with
      last_discarded_tile := some ⟨5, Suit.wan⟩ }).tile_weights ⟨5, Suit.wan⟩ 0 = 99/50 ∧
    lookupD (mj_update_experience true { default_state with
      last_discarded_tile := some ⟨5, Suit.wan⟩ }).tile_weights ⟨5, Suit.wan⟩ 0 = 99/50 ∧
    max 0.5 (min (lookupD default_tile_weights ⟨5, Suit.wan⟩ 0 * 1.2) 2.0) = 9/5 ∧
    ¬ ((99 : ℚ)/50 = 9/5) := by
  with_unfolding_all exact of_decide_eq_true rfl

/-- C4 (amended).  In `mahjong_ai.py`, `update_experience` with
`LastDiscard = t` first rescales `tile_weights[t]` by 1.2 (winning) / 0.8
(losing) with a clamp to [0.5, 2.0], and then the offset loop −1, 0, +1
applies the neighbour factor 1.1 / 0.9 (again clamped) to every existing
tile at those offsets — including `t` itself at offset 0, so `t` ends at
clamp(clamp(w·1.2)·1.1) resp. clamp(clamp(w·0.8)·0.9); true in-range
neighbours end at clamp(w·1.1) resp. clamp(w·0.9); all other tile weights
are untouched.  (In `major.py` the same multiplications happen but only
`tile_weights[t]` is clamped, at the end — see the C1 counterexample for a
neighbour escaping the bound.) -/
theorem c4_tile_update (s : MState) (t : Tile) (b : Bool)
    (hlast : s.last_discarded_tile = some t)
    (h1 : 1 ≤ t.num) (h9 : t.num ≤ 9)
    (hkeys : ∀ m : ℤ, 1 ≤ m → m ≤ 9 →
      containsKey s.tile_weights (⟨m, t.suit⟩ : Tile) = true) :
    lookupD (update_experience b s).tile_weights t 0 =
      max 0.5 (min (max 0.5 (min (lookupD s.tile_weights t 0 *
        (if b then 1.2 else 0.8)) 2.0) * (if b then 1.1 else 0.9)) 2.0) ∧
    (∀ m : ℤ, (m = t.num - 1 ∨ m = t.num + 1) → 1 ≤ m → m ≤ 9 →
      lookupD (update_experience b s).tile_weights (⟨m, t.suit⟩ : Tile) 0 =
        max 0.5 (min (lookupD s.tile_weights (⟨m, t.suit⟩ : Tile) 0 *
          (if b then 1.1 else 0.9)) 2.0)) ∧
    (∀ u : Tile, (u.suit = t.suit → u.num < t.num - 1 ∨ t.num + 1 < u.num) → ∀ d : ℚ,
      lookupD (update_experience b s).tile_weights u d = lookupD s.tile_weights u d) := by
  obtain ⟨n, su⟩ := t
  rw [update_experience_tile_weights b s ⟨n, su⟩ hlast]
  cases b
  · have h := update_tile_weights_spec n su 0.9 s.tile_weights h1 h9 hkeys
    rw [show (if (1:ℚ) < 0.9 then (1.2:ℚ) else 0.8) = 0.8 from by norm_num,
        show (if (1:ℚ) < 0.9 then (1.1:ℚ) else 0.9) = 0.9 from by norm_num] at h
    simpa using h
  · have h := update_tile_weights_spec n su 1.1 s.tile_weights h1 h9 hkeys
    rw [show (if (1:ℚ) < 1.1 then (1.2:ℚ) else 0.8) = 1.2 from by norm_num,
        show (if (1:ℚ) < 1.1 then (1.1:ℚ) else 0.9) = 1.1 from by norm_num] at h
    simpa using h

def c4_state : MState := { default_state with last_discarded_tile := some ⟨5, Suit.wan⟩ }

theorem c4_witness :
    (c4_state.last_discarded_tile = some ⟨5, Suit.wan⟩ ∧
     (1 : ℤ) ≤ (⟨5, Suit.wan⟩ : Tile).num ∧ (⟨5, Suit.wan⟩ : Tile).num ≤ 9) ∧
    (lookupD (update_experience true c4_state).tile_weights ⟨5, Suit.wan⟩ 0 =
      max 0.5 (min (max 0.5 (min (lookupD c4_state.tile_weights ⟨5, Suit.wan⟩ 0 *
        (if true then 1.2 else 0.8)) 2.0) * (if true then 1.1 else 0.9)) 2.0) ∧
    (∀ m : ℤ, (m = (⟨5, Suit.wan⟩ : Tile).num - 1 ∨ m = (⟨5, Suit.wan⟩ : Tile).num + 1) →
      1 ≤ m → m ≤ 9 →
      lookupD (update_experience true c4_state).tile_weights (⟨m, Suit.wan⟩ : Tile) 0 =
        max 0.5 (min (lookupD c4_state.tile_weights (⟨m, Suit.wan⟩ : Tile) 0 *
          (if true then 1.1 else 0.9)) 2.0)) ∧
    (∀ u : Tile, (u.suit = Suit.wan →
        u.num < (⟨5, Suit.wan⟩ : Tile).num - 1 ∨ (⟨5, Suit.wan⟩ : Tile).num + 1 < u.num) →
      ∀ d : ℚ,
      lookupD (update_experience true c4_state).tile_weights u d =
        lookupD c4_state.tile_weights u d)) :=
  ⟨⟨rfl, by decide, by decide⟩,
   c4_tile_update c4_state ⟨5, Suit.wan⟩ true rfl (by decide) (by decide)
     (fun m hm1 hm9 => containsKey_default_tw m Suit.wan hm1 hm9)⟩

theorem adjust_noop (s : MState) (r : ℚ) (hrf : rf_bounded s.risk_factors)
    (h5 : 5 ≤ r) (h10 : r ≤ 10) :
    adjust_risk_factors r s = save_weights s := by
  have hfac : (if 10 < r then (1.1:ℚ) else if r < 5 then 0.9 else 1) = 1 := by
    rw [if_neg (by linarith), if_neg (by linarith)]
  rw [adjust_risk_factors]
  dsimp only
  rw [hfac]
  have hone : ∀ x : ℚ, (-10:ℚ) ≤ x → x ≤ 20 → max (-10) (min (x * 1) 20) = x :=
    fun x ha hb => by rw [mul_one, min_eq_left hb, max_eq_right ha]
  obtain ⟨hb1, hb2, hb3, hb4, hb5⟩ := hrf
  rw [hone _ hb1.1 hb1.2, hone _ hb3.1 hb3.2, hone _ hb4.1 hb4.2, hone _ hb5.1 hb5.2,
    map_eq_self_of _ _ (fun p hp => by rw [hone _ (hb2 p hp).1 (hb2 p hp).2])]

theorem evaluate_tile_risk_noop (s : MState) (t : Tile)
    (hrf : rf_bounded s.risk_factors)
    (h5 : 5 ≤ raw_risk s t) (h10 : raw_risk s t ≤ 10) :
    evaluate_tile_risk s t = (max (raw_risk s t) 0, save_weights s) := by
  rw [evaluate_tile_risk]
  rw [adjust_noop s (raw_risk s t) hrf h5 h10]

theorem score_tiles_noop (l : List Tile) (s0 : MState)
    (hrf : rf_bounded s0.risk_factors)
    (hl : ∀ t ∈ l, 5 ≤ raw_risk s0 t ∧ raw_risk s0 t ≤ 10) :
    (score_tiles l s0).1 = l.map (fun t => (t, pure_score s0 t)) ∧
    (score_tiles l (save_weights s0)).1 = l.map (fun t => (t, pure_score s0 t)) := by
  induction l with
  | nil => exact ⟨rfl, rfl⟩
  | cons t ts ih =>
    have ht := hl t (List.mem_cons_self _ _)
    have ihh := ih (fun u hu => hl u (List.mem_cons_of_mem _ hu))
    have heval : evaluate_tile_risk s0 t = (max (raw_risk s0 t) 0, save_weights s0) :=
      evaluate_tile_risk_noop s0 t hrf ht.1 ht.2
    have heval2 : evaluate_tile_risk (save_weights s0) t =
        (max (raw_risk s0 t) 0, save_weights s0) :=
      evaluate_tile_risk_noop (save_weights s0) t hrf ht.1 ht.2
    constructor
    · rw [score_tiles]
      dsimp only
      rw [heval]
      dsimp only
      rw [List.map_cons]
      exact congrArg (_ :: ·) ihh.2
    · rw [score_tiles]
      dsimp only
      rw [heval2]
      dsimp only
      rw [List.map_cons]
      exact congrArg (_ :: ·) ihh.2

/-- C7 (counterexample).  Same multiset hand [3万, 5条] (empty piles,
default weights) in its two orders: the risk self-tuning inflates the risk
factors after the first tile is scored (raw risk 12 > 10 on an empty pile),
so the second tile is charged 13.2 instead of 12, and the chosen discard
flips between 5条 and 3万. -/
theorem c7_counterexample :
    ({ default_state with my_hand := [⟨3, Suit.wan⟩, ⟨5, Suit.tiao⟩] } : MState).my_hand.Perm
      ({ default_state with my_hand := [⟨5, Suit.tiao⟩, ⟨3, Suit.wan⟩] } : MState).my_hand ∧
    (choose_tile_to_discard
      { default_state with my_hand := [⟨3, Suit.wan⟩, ⟨5, Suit.tiao⟩] }).map Prod.fst =
        some ⟨5, Suit.tiao⟩ ∧
    (choose_tile_to_discard
      { default_state with my_hand := [⟨5, Suit.tiao⟩, ⟨3, Suit.wan⟩] }).map Prod.fst =
        some ⟨3, Suit.wan⟩ ∧
    (⟨5, Suit.tiao⟩ : Tile) ≠ ⟨3, Suit.wan⟩ := by
  with_unfolding_all exact of_decide_eq_true rfl

/-- C7 (amended).  When the scoring pass cannot move the risk factors —
every in-bounds factor stays fixed because every tile's raw risk lies in
[5, 10] (adjustment factor 1) — and the minimal score is attained at a
unique tile value, `choose_tile_to_discard` is insensitive to the order of
the hand: every permutation selects the same tile. -/
theorem c7_order_insensitive (s : MState) (t0 : Tile)
    (hrf : rf_bounded s.risk_factors)
    (hl : ∀ t ∈ s.my_hand, 5 ≤ raw_risk s t ∧ raw_risk s t ≤ 10)
    (ht0 : t0 ∈ s.my_hand)
    (hmin : ∀ t ∈ s.my_hand, t ≠ t0 → pure_score s t0 < pure_score s t) :
    ∀ hand2 : List Tile, hand2.Perm s.my_hand →
      (choose_tile_to_discard { s with my_hand := hand2 }).map Prod.fst = some t0 := by
  intro hand2 hperm
  have hseq : ∀ t : Tile,
      is_part_of_sequence { s with my_hand := hand2 } t = is_part_of_sequence s t := by
    intro t
    rw [Bool.eq_iff_iff]
    simp only [is_part_of_sequence, List.any_eq_true, Bool.and_eq_true, decide_eq_true_eq]
    constructor
    · rintro ⟨off, hoff, hmem, hne⟩
      exact ⟨off, hoff, hperm.subset hmem, hne⟩
    · rintro ⟨off, hoff, hmem, hne⟩
      exact ⟨off, hoff, hperm.mem_iff.2 hmem, hne⟩
  have hval : ∀ t : Tile,
      evaluate_tile_value { s with my_hand := hand2 } t = evaluate_tile_value s t := by
    intro t
    simp only [evaluate_tile_value, get_value_based_on_count]
    rw [show ({ s with my_hand := hand2 } : MState).my_hand.count t = s.my_hand.count t from
      hperm.count_eq t, hseq t]
    rfl
  have hps : ∀ t : Tile, pure_score { s with my_hand := hand2 } t = pure_score s t := by
    intro t
    rw [pure_score, pure_score, hval t]
    rfl
  have hl2 : ∀ t ∈ hand2,
      5 ≤ raw_risk { s with my_hand := hand2 } t ∧
      raw_risk { s with my_hand := hand2 } t ≤ 10 :=
    fun t ht => hl t (hperm.subset ht)
  have hsc := (score_tiles_noop hand2 { s with my_hand := hand2 } hrf hl2).1
  have hne2 : t0 ∈ hand2 := hperm.mem_iff.2 ht0
  cases hsc2 : (score_tiles hand2 { s with my_hand := hand2 }).1 with
  | nil =>
    exfalso
    rw [hsc] at hsc2
    rw [List.map_eq_nil_iff.1 hsc2] at hne2
    simp at hne2
  | cons x xs =>
    have hchoose : choose_tile_to_discard { s with my_hand := hand2 } =
        some ((min_by_score x xs).1, (score_tiles hand2 { s with my_hand := hand2 }).2) := by
      rw [choose_tile_to_discard]
      simp only [hsc2]
    rw [hchoose]
    show some (min_by_score x xs).1 = some t0
    have hmem := min_by_score_mem x xs
    rw [← hsc2, hsc, List.mem_map] at hmem
    obtain ⟨u, hu, hmin_eq⟩ := hmem
    have hle := min_by_score_le x xs
    have ht0pair : (t0, pure_score { s with my_hand := hand2 } t0) ∈
        (score_tiles hand2 { s with my_hand := hand2 }).1 := by
      rw [hsc]
      exact List.mem_map_of_mem _ hne2
    rw [hsc2] at ht0pair
    have hle0 := hle _ ht0pair
    by_cases hu0 : u = t0
    · rw [← hmin_eq, hu0]
    · exfalso
      have hlt := hmin u (hperm.subset hu) hu0
      rw [← hmin_eq] at hle0
      dsimp only at hle0
      rw [hps u, hps t0] at hle0
      linarith

def c7_state : MState := { default_state with
  my_hand := [⟨3, Suit.wan⟩, ⟨9, Suit.tong⟩],
  discard_pile := [⟨3, Suit.wan⟩, ⟨9, Suit.tong⟩] }

theorem c7_witness :
    (rf_bounded c7_state.risk_factors ∧
     (∀ t ∈ c7_state.my_hand, 5 ≤ raw_risk c7_state t ∧ raw_risk c7_state t ≤ 10) ∧
     (⟨9, Suit.tong⟩ : Tile) ∈ c7_state.my_hand ∧
     (∀ t ∈ c7_state.my_hand, t ≠ (⟨9, Suit.tong⟩ : Tile) →
        pure_score c7_state ⟨9, Suit.tong⟩ < pure_score c7_state t)) ∧
    (∀ hand2 : List Tile, hand2.Perm c7_state.my_hand →
      (choose_tile_to_discard { c7_state with my_hand := hand2 }).map Prod.fst =
        some ⟨9, Suit.tong⟩) :=
  ⟨⟨by with_unfolding_all exact of_decide_eq_true rfl,
    by with_unfolding_all exact of_decide_eq_true rfl,
    by with_unfolding_all exact of_decide_eq_true rfl,
    by with_unfolding_all exact of_decide_eq_true rfl⟩,
   c7_order_insensitive c7_state ⟨9, Suit.tong⟩
     (by with_unfolding_all exact of_decide_eq_true rfl)
     (by with_unfolding_all exact of_decide_eq_true rfl)
     (by with_unfolding_all exact of_decide_eq_true rfl)
     (by with_unfolding_all exact of_decide_eq_true rfl)⟩
